import Mathlib

/-!
Verification of `udstyle.py` (dependency-treebank complexity metrics).

This file gives a shallow embedding of the core of the program:
the CoNLL-U reader `conllureader`, the index repairer `renumber`, and the
per-sentence metric engine `complexitymetrics`, and proves the frozen
claims about them.

Conventions of the embedding:
  * Python `int` fields become `Int`; other CoNLL-U fields stay `String`.
  * The input stream is the list of lines exactly as Python file
    iteration yields them (each line keeps its trailing newline
    character, matching `for line in inp`).
  * Fallible code returns `Except`/`Option`.  A Python exception that
    `conllureader` does not catch becomes an `Except.error`; the
    `KeyError` of `renumber`, which `conllureader` catches per sentence,
    is modelled by `renumber` returning `none`.
  * Real-valued arithmetic (`/`, `abs`) is carried out in `ℚ`, which is
    exact for every operation the metrics perform except the final
    `abs(log(... / sqrt(...)))` of NDD; there the embedding returns the
    square of the argument of `log` (a rational), which preserves
    exactly the error behaviour (`log` domain, root lookup) the claims
    are about.
-/

/-- One parsed token line: the ten CoNLL-U fields, with ID and HEAD
already converted to integers, as `conllureader` leaves them.
(The Python code keeps the token as the mutated `fields` list; missing
trailing fields, which Python would only fault on at a later access, are
defaulted to `""` here.) -/
structure Token where
  id : Int
  form : String
  lem : String  -- the LEMMA field (`lemma` is reserved in Lean)
  upos : String
  xpos : String
  feats : String
  head : Int
  deprel : String
  deps : String
  misc : String
deriving DecidableEq, Repr

/-- A sentence is the list of its tokens: `sentences[sentno][tokenno]`. -/
abbrev Sentence := List Token

/-- Errors of `conllureader` that propagate to the caller.
`valueErr` is an uncaught `ValueError` from `int(fields[ID])`;
`indexErr` is an `IndexError` from accessing a missing field;
`noSentences` is the final `ValueError('no sentences; ...')`. -/
inductive ReadErr where
  | valueErr
  | indexErr
  | noSentences
deriving DecidableEq, Repr

/-- The digits of a non-empty decimal numeral, most significant first;
`none` when the character list is empty or holds a non-digit. -/
def digitsVal? (cs : List Char) : Option Nat :=
  if cs.isEmpty then none
  else
    cs.foldl
      (fun acc c =>
        match acc with
        | none => none
        | some n => if c.isDigit then some (n * 10 + (c.toNat - '0'.toNat)) else none)
      (some 0)

/-- Python `int(s)` on an ID/HEAD field: an optional sign followed by
digits.  `none` models `ValueError`.  (Python additionally strips
whitespace and allows digit-group underscores; such strings do not occur
in the ten tab-separated fields of well-formed CoNLL-U input.) -/
def pyInt? (cs : List Char) : Option Int :=
  match cs with
  | '-' :: rest => (digitsVal? rest).map (fun n => -(n : Int))
  | '+' :: rest => (digitsVal? rest).map (fun n => (n : Int))
  | _ => (digitsVal? cs).map (fun n => (n : Int))

/-- Python `str.split(sep)` for a one-character separator: split at every
occurrence, keeping empty pieces (`''.split` gives `['']`). -/
def splitTab : List Char → List (List Char)
  | [] => [[]]
  | c :: cs =>
    match splitTab cs with
    | [] => [[c]]
    | g :: gs => if c = '\t' then [] :: g :: gs else (c :: g) :: gs

/-- `line.startswith('#')`. -/
def isComment (line : String) : Bool :=
  match line.data with
  | c :: _ => c = '#'
  | [] => false

/-! ### renumber -/

/-- The entries of the dict comprehension
`{line[ID]: n for n, line in enumerate(sent, 1)}`, in insertion order,
with the counter starting at `n`. -/
def renumberEntriesAux : Int → List Token → List (Int × Int)
  | _, [] => []
  | n, t :: ts => (t.id, n) :: renumberEntriesAux (n + 1) ts

/-- The full mapping of `renumber`: the dict comprehension followed by
the insertion `mapping[0] = 0` (which, being last, overrides any token
whose ID is 0, just as in a Python dict). -/
def renumberEntries (sent : Sentence) : List (Int × Int) :=
  renumberEntriesAux 1 sent ++ [(0, 0)]

/-- Lookup in a Python dict built by inserting `entries` in order:
the LAST insertion of a key wins; `none` models `KeyError`. -/
def dictLookup (entries : List (Int × Int)) (k : Int) : Option Int :=
  (entries.reverse.find? (fun p => p.1 == k)).map Prod.snd

/-- The rewrite loop of `renumber`: `line[ID] = mapping[line[ID]];
line[HEAD] = mapping[line[HEAD]]` for each token in order.  A failed
lookup is the `KeyError` that `conllureader` catches. -/
def renumberTokens (m : Int → Option Int) : List Token → Option (List Token)
  | [] => some []
  | t :: ts =>
    match m t.id, m t.head with
    | some i, some h =>
      match renumberTokens m ts with
      | some rest => some ({ t with id := i, head := h } :: rest)
      | none => none
    | _, _ => none

/-- `renumber(sent)`: fix non-contiguous IDs; `none` is the `KeyError`
raised when a head references an index absent from the mapping. -/
def renumber (sent : Sentence) : Option Sentence :=
  renumberTokens (dictLookup (renumberEntries sent)) sent

/-! ### conllureader -/

/-- Build the Token from the mutated `fields` list (ID and HEAD already
integers). -/
def mkToken (fields : List (List Char)) (i h : Int) : Token :=
  { id := i
    form := ⟨fields.getD 1 []⟩
    lem := ⟨fields.getD 2 []⟩
    upos := ⟨fields.getD 3 []⟩
    xpos := ⟨fields.getD 4 []⟩
    feats := ⟨fields.getD 5 []⟩
    head := h
    deprel := ⟨fields.getD 7 []⟩
    deps := ⟨fields.getD 8 []⟩
    misc := ⟨fields.getD 9 []⟩ }

/-- Parse the ID field (after the empty-node and punctuation skips) and
then the HEAD field, exactly in the source's order:
`'-' in fields[ID]` takes `int` of the prefix before the first hyphen,
otherwise `int(fields[ID])`; either failure is an uncaught `ValueError`.
Then `int(fields[HEAD])` inside `try`: a `ValueError` there skips the
token (`.ok none`), while a missing HEAD field is an uncaught
`IndexError`. -/
def parseIdHead (fields : List (List Char)) (idf : List Char) :
    Except ReadErr (Option Token) :=
  let idParsed : Except ReadErr Int :=
    if idf.contains '-' then
      match pyInt? (idf.takeWhile (fun c => c ≠ '-')) with
      | none => .error .valueErr
      | some i => .ok i
    else
      match pyInt? idf with
      | none => .error .valueErr
      | some i => .ok i
  match idParsed with
  | .error e => .error e
  | .ok i =>
    match fields.get? 6 with
    | none => .error .indexErr
    | some hf =>
      match pyInt? hf with
      | none => .ok none
      | some h => .ok (some (mkToken fields i h))

/-- Process one non-blank, non-comment line:
`fields = line[:-1].split('\t')`; skip empty nodes (`'.' in fields[ID]`);
skip punctuation when `excludepunct` (accessing `fields[UPOS]`, an
`IndexError` when missing); then parse ID and HEAD.
`.ok none` means the line contributes no token. -/
def parseTokenLine (excludepunct : Bool) (line : String) :
    Except ReadErr (Option Token) :=
  let fields := splitTab line.data.dropLast
  let idf := fields.headD []
  if idf.contains '.' then .ok none
  else if excludepunct then
    match fields.get? 3 with
    | none => .error .indexErr
    | some upos =>
      if (⟨upos⟩ : String) = "PUNCT" then .ok none
      else parseIdHead fields idf
  else parseIdHead fields idf

/-- One iteration of the reader loop.  State is
`(result, sent)`: the sentences appended so far and the pending tokens.
A blank line flushes a non-empty pending sentence through `renumber`,
silently dropping it on `KeyError` (`except KeyError: pass`); comment
lines are ignored; other lines are parsed as token lines. -/
def conlluStep (excludepunct : Bool) (st : List Sentence × Sentence)
    (line : String) : Except ReadErr (List Sentence × Sentence) :=
  let result := st.1
  let sent := st.2
  if line = "\n" then
    if sent.isEmpty then .ok (result, sent)
    else
      match renumber sent with
      | some s => .ok (result ++ [s], [])
      | none => .ok (result, [])
  else if isComment line then .ok (result, sent)
  else
    match parseTokenLine excludepunct line with
    | .error e => .error e
    | .ok none => .ok (result, sent)
    | .ok (some t) => .ok (result, sent ++ [t])

/-- The reader loop over all lines. -/
def conlluFold (excludepunct : Bool) (st : List Sentence × Sentence) :
    List String → Except ReadErr (List Sentence × Sentence)
  | [] => .ok st
  | l :: ls =>
    match conlluStep excludepunct st l with
    | .error e => .error e
    | .ok st2 => conlluFold excludepunct st2 ls

/-- `conllureader(filename, excludepunct)` on the stream of lines.
Note that the loop ends without flushing a still-pending sentence, and
that an empty `result` raises
`ValueError('no sentences; not a valid .conllu file?')`. -/
def conllureader (lines : List String) (excludepunct : Bool) :
    Except ReadErr (List Sentence) :=
  match conlluFold excludepunct ([], []) lines with
  | .error e => .error e
  | .ok (result, _) =>
    if result.isEmpty then .error .noSentences else .ok result

/-! ### complexitymetrics -/

/-- `mean(iterable)`: sum over length.  In `ℚ` the empty case yields
`0/0 = 0` where Python raises `ZeroDivisionError`; every claim that uses
`meanQ` carries a nonemptiness guard. -/
def meanQ (l : List ℚ) : ℚ := l.sum / l.length

/-- Relations ignored for MDD, following Chen and Gerdes (2017). -/
def excludeRels : List String := ["fixed", "flat", "conj", "punct"]

/-- Content-word UPOS tags for lexical density. -/
def contentTags : List String := ["ADJ", "ADV", "INTJ", "NOUN", "PROPN", "VERB"]

/-- `LEN`: sentence length `len(sent)`. -/
def LEN (sent : Sentence) : Nat := sent.length

/-- `MDD`: mean of `abs(line[ID] - line[HEAD])` over tokens whose DEPREL
is not in the exclusion set. -/
def MDD (sent : Sentence) : ℚ :=
  meanQ ((sent.filter (fun t => !(excludeRels.contains t.deprel))).map
    (fun t => ((|t.id - t.head| : Int) : ℚ)))

/-- `ADJD`: mean of the indicator `abs(line[ID] - line[HEAD]) == 1`
over all tokens. -/
def ADJD (sent : Sentence) : ℚ :=
  meanQ (sent.map (fun t => if |t.id - t.head| = 1 then (1 : ℚ) else 0))

/-- `LEFT`: mean of the indicator `line[ID] < line[HEAD]` over all
tokens. -/
def LEFT (sent : Sentence) : ℚ :=
  meanQ (sent.map (fun t => if t.id < t.head then (1 : ℚ) else 0))

/-- `MOD`: mean of the indicator `line[DEPREL] == 'nmod'`. -/
def MODm (sent : Sentence) : ℚ :=
  meanQ (sent.map (fun t => if t.deprel = "nmod" then (1 : ℚ) else 0))

/-- `CLS`: `1 + sum(line[UPOS] == 'VERB' for line in sent)`. -/
def CLS (sent : Sentence) : Nat :=
  1 + sent.countP (fun t => t.upos == "VERB")

/-- `CLL`: `len(sent) / max(1, number of VERB tokens)`. -/
def CLL (sent : Sentence) : ℚ :=
  (sent.length : ℚ) / (max 1 (sent.countP (fun t => t.upos == "VERB")) : Nat)

/-- `LXD`: content-word count over sentence length. -/
def LXD (sent : Sentence) : ℚ :=
  (sent.countP (fun t => contentTags.contains t.upos) : ℚ) / sent.length

/-- The failures of the NDD computation for one sentence. -/
inductive NddErr where
  | rootNotFound
  | logDomain
deriving DecidableEq, Repr

/-- The NDD computation
`abs(log(mdd / sqrt(([line[DEPREL] ...].index('root') + 1) * len(sent))))`
for one sentence and its already-computed `mdd`.
`.index('root')` raising `ValueError` when no DEPREL is `"root"` is
`rootNotFound`; `log` of a non-positive argument (the argument
`mdd / sqrt(..)` is non-positive exactly when `mdd ≤ 0`, the sqrt being
positive whenever the index lookup succeeded) is `logDomain`.  The `ok`
payload is the square of the argument of `log`, which is rational. -/
def nddCalc (sent : Sentence) (mdd : ℚ) : Except NddErr ℚ :=
  match (sent.map Token.deprel).findIdx? (fun d => d == "root") with
  | none => .error .rootNotFound
  | some i =>
    if mdd ≤ 0 then .error .logDomain
    else .ok (mdd * mdd / (((i : ℚ) + 1) * (sent.length : ℚ)))

/-! ### Concrete inputs used by the claims -/

deriving instance DecidableEq for Except

/-- The token `1 The _ DET _ _ 2 det _ _` of the scenario sentence. -/
def tokThe : Token := ⟨1, "The", "_", "DET", "_", "_", 2, "det", "_", "_"⟩

/-- The token `2 cat _ NOUN _ _ 0 root _ _` of the scenario sentence. -/
def tokCat : Token := ⟨2, "cat", "_", "NOUN", "_", "_", 0, "root", "_", "_"⟩

/-- The two-token scenario sentence. -/
def theCatSent : Sentence := [tokThe, tokCat]

/-- C3 (counterexample): on the two-token sentence
`1 The _ DET _ _ 2 det _ _` / `2 cat _ NOUN _ _ 0 root _ _` the code
does NOT produce MDD=1.0, ADJD=1.0, LEFT=1.0: the root token
(distance `|2-0| = 2`) is included in all three means, because `root`
is not in the exclusion set `('fixed', 'flat', 'conj', 'punct')`. -/
theorem theCat_metrics_counterexample :
    MDD theCatSent ≠ 1 ∧ ADJD theCatSent ≠ 1 ∧ LEFT theCatSent ≠ 1 := by
  refine ⟨?_, ?_, ?_⟩ <;>
      simp [MDD, ADJD, LEFT, meanQ, excludeRels, theCatSent, tokThe, tokCat,
        List.filter] <;>
      norm_num

/-- C3 (amended): the metric engine on the two-token sentence
`1 The _ DET _ _ 2 det _ _` / `2 cat _ NOUN _ _ 0 root _ _` produces
LEN=2, MDD=1.5, ADJD=0.5, LEFT=0.5, CLS=1, CLL=2.0, LXD=0.5. -/
theorem theCat_metrics :
    LEN theCatSent = 2 ∧ MDD theCatSent = 3 / 2 ∧
    ADJD theCatSent = 1 / 2 ∧ LEFT theCatSent = 1 / 2 ∧
    CLS theCatSent = 1 ∧ CLL theCatSent = 2 ∧ LXD theCatSent = 1 / 2 := by
  refine ⟨rfl, ?_, ?_, ?_, rfl, ?_, ?_⟩ <;>
      simp [MDD, ADJD, LEFT, CLL, LXD, meanQ, excludeRels, contentTags,
        theCatSent, tokThe, tokCat, List.filter, List.countP, List.countP.go] <;>
      norm_num

/-- C7: on an input with the multiword-token header line
`1-2 don't _ _ _ _ _ _ _ _` followed by ordinary tokens 1 and 2, the
header produces no Token (its HEAD field `_` fails integer parsing, so
the line is skipped) and the two ordinary tokens come out renumbered to
1 and 2, i.e. unchanged. -/
theorem multiword_header_dropped :
    conllureader
      ["1-2\tdon\x27t\t_\t_\t_\t_\t_\t_\t_\t_\n",
       "1\tdo\t_\tAUX\t_\t_\t2\taux\t_\t_\n",
       "2\tnot\t_\tPART\t_\t_\t0\troot\t_\t_\n",
       "\n"] false =
    Except.ok [[⟨1, "do", "_", "AUX", "_", "_", 2, "aux", "_", "_"⟩,
                ⟨2, "not", "_", "PART", "_", "_", 0, "root", "_", "_"⟩]] := by
  decide

/-- C6: `conllureader` never returns an empty corpus as a success: the
empty input (zero lines) yields the `no sentences` error, and no input
whatsoever yields `Except.ok []`. -/
theorem conllureader_never_empty_ok (lines : List String) (ep : Bool) :
    conllureader [] ep = Except.error ReadErr.noSentences ∧
    conllureader lines ep ≠ Except.ok [] := by
  constructor
  · rfl
  · unfold conllureader
    cases h : conlluFold ep ([], []) lines with
    | error e => simp
    | ok st =>
      obtain ⟨res, pending⟩ := st
      by_cases hres : res.isEmpty
      · simp [hres]
      · simp only [hres, if_false]
        intro hok
        obtain rfl : res = [] := by
          simpa using hok
        simp at hres

/-- C4 (counterexample): an input whose single sentence is pending at
end of stream (the source ends without a trailing blank line) is NOT
flushed: the pending sentence is lost, and since nothing else was read,
`conllureader` even raises the `no sentences` error instead of
returning that sentence. -/
theorem trailing_sentence_lost :
    conllureader ["1\tThe\t_\tDET\t_\t_\t0\troot\t_\t_\n"] false =
      Except.error ReadErr.noSentences := by
  decide

/-- C2 (counterexample): a sentence whose token has a dangling head
(here head 3, with no token 3) does NOT make the whole file's reading
fail: `conllureader` catches the `KeyError` of `renumber`, silently
drops that sentence, and returns the remaining sentence successfully. -/
theorem conllureader_recovers_after_renumber_failure :
    renumber [⟨1, "a", "_", "X", "_", "_", 3, "dep", "_", "_"⟩] = none ∧
    conllureader
      ["1\ta\t_\tX\t_\t_\t3\tdep\t_\t_\n",
       "\n",
       "1\tb\t_\tX\t_\t_\t0\troot\t_\t_\n",
       "\n"] false =
    Except.ok [[⟨1, "b", "_", "X", "_", "_", 0, "root", "_", "_"⟩]] := by
  constructor
  · decide
  · decide

/-! ### Lemmas about the renumber mapping -/

/-- If some entry of `l` has key `k`, and every entry of `l` with key
`k` carries the value `v`, then looking the first matching entry up
yields `v`. -/
theorem find?_key_val (l : List (Int × Int)) (k v : Int)
    (hmem : (k, v) ∈ l) (hall : ∀ p ∈ l, p.1 = k → p.2 = v) :
    (l.find? (fun p => p.1 == k)).map Prod.snd = some v := by
  induction l with
  | nil => simp at hmem
  | cons p rest ih =>
    by_cases hp : p.1 = k
    · have hv : p.2 = v := hall p (List.mem_cons_self p rest) hp
      simp [List.find?_cons, hp, hv]
    · have hmem2 : (k, v) ∈ rest := by
        rcases List.mem_cons.mp hmem with h | h
        · exact absurd (by rw [← h]) hp
        · exact h
      have hall2 : ∀ p ∈ rest, p.1 = k → p.2 = v := fun q hq => hall q (List.mem_cons_of_mem p hq)
      simpa [List.find?_cons, hp] using ih hmem2 hall2

/-- The explicit `mapping[0] = 0` entry wins for key 0 (it is the last
insertion into the dict). -/
theorem dictLookup_renumber_zero (sent : Sentence) :
    dictLookup (renumberEntries sent) 0 = some 0 := by
  simp [dictLookup, renumberEntries, List.find?_cons]

/-- Every entry of `renumberEntriesAux n ts` is `(ts[i].id, n + i)` for
some position `i`. -/
theorem mem_renumberEntriesAux (ts : List Token) (n : Int) (p : Int × Int)
    (hp : p ∈ renumberEntriesAux n ts) :
    ∃ i, ∃ hi : i < ts.length, p.1 = (ts.get ⟨i, hi⟩).id ∧ p.2 = n + i := by
  induction ts generalizing n with
  | nil => simp [renumberEntriesAux] at hp
  | cons t rest ih =>
    rcases List.mem_cons.mp hp with h | h
    · exact ⟨0, by simp, by simp [h], by simp [h]⟩
    · obtain ⟨i, hi, h1, h2⟩ := ih (n + 1) h
      exact ⟨i + 1, by simpa using Nat.succ_lt_succ hi,
        by simpa using h1, by rw [h2]; push_cast; ring⟩

/-- Conversely, each position contributes its entry. -/
theorem renumberEntriesAux_mem (ts : List Token) (n : Int) (i : Nat)
    (hi : i < ts.length) :
    ((ts.get ⟨i, hi⟩).id, n + i) ∈ renumberEntriesAux n ts := by
  induction ts generalizing n i with
  | nil => simp at hi
  | cons t rest ih =>
    cases i with
    | zero => simp [renumberEntriesAux]
    | succ j =>
      have hj : j < rest.length := Nat.lt_of_succ_lt_succ hi
      have := ih (n + 1) j hj
      refine List.mem_cons_of_mem _ ?_
      have harith : n + 1 + (j : Int) = n + (j + 1 : Nat) := by push_cast; ring
      rw [← harith]
      simpa using this

/-- Looking up the ID of the token at position `i` (0-based) in the
renumber mapping yields `i + 1`, provided the IDs are pairwise distinct
and the ID is nonzero (a zero ID would be overridden by the final
`mapping[0] = 0` insertion). -/
theorem dictLookup_renumber_id (sent : Sentence)
    (hnd : (sent.map Token.id).Nodup)
    (i : Nat) (hi : i < sent.length)
    (hnz : (sent.get ⟨i, hi⟩).id ≠ 0) :
    dictLookup (renumberEntries sent) ((sent.get ⟨i, hi⟩).id) =
      some ((i : Int) + 1) := by
  unfold dictLookup renumberEntries
  rw [List.reverse_append]
  simp only [List.reverse_singleton, List.singleton_append, List.find?_cons]
  have hzero : ((0 : Int) == (sent.get ⟨i, hi⟩).id) = false :=
    beq_eq_false_iff_ne.mpr (Ne.symm hnz)
  rw [hzero]
  apply find?_key_val
  · rw [List.mem_reverse]
    have := renumberEntriesAux_mem sent 1 i hi
    simpa [add_comm] using this
  · intro p hp hkey
    rw [List.mem_reverse] at hp
    obtain ⟨j, hj, h1, h2⟩ := mem_renumberEntriesAux sent 1 p hp
    have hids : (sent.map Token.id).get ⟨j, by simpa using hj⟩ =
        (sent.map Token.id).get ⟨i, by simpa using hi⟩ := by
      simp only [List.get_eq_getElem, List.getElem_map]
      exact h1.symm.trans hkey
    have hji : j = i := by
      have := (List.Nodup.get_inj_iff hnd).mp hids
      simpa using this
    subst hji
    rw [h2]; ring

/-- A nonzero key that is no token's ID is absent from the renumber
mapping: the lookup is the `KeyError`. -/
theorem dictLookup_renumber_none (sent : Sentence) (k : Int)
    (hk : k ≠ 0) (habs : ∀ t ∈ sent, t.id ≠ k) :
    dictLookup (renumberEntries sent) k = none := by
  unfold dictLookup renumberEntries
  rw [List.reverse_append]
  simp only [List.reverse_singleton, List.singleton_append, List.find?_cons]
  have hzero : ((0 : Int) == k) = false := beq_eq_false_iff_ne.mpr (Ne.symm hk)
  rw [hzero]
  have : (renumberEntriesAux 1 sent).reverse.find? (fun p => p.1 == k) = none := by
    rw [List.find?_eq_none]
    intro p hp
    rw [List.mem_reverse] at hp
    obtain ⟨j, hj, h1, _⟩ := mem_renumberEntriesAux sent 1 p hp
    have : (sent.get ⟨j, hj⟩).id ≠ k := habs _ (sent.get_mem j hj)
    simpa [h1] using this
  rw [this]
  rfl

/-- When every token's ID and head are in the mapping, the rewrite
loop succeeds and produces exactly the mapped tokens. -/
theorem renumberTokens_eq_map (m : Int → Option Int) (ts : List Token)
    (h : ∀ t ∈ ts, (m t.id).isSome ∧ (m t.head).isSome) :
    renumberTokens m ts =
      some (ts.map (fun t =>
        { t with id := (m t.id).getD 0, head := (m t.head).getD 0 })) := by
  induction ts with
  | nil => rfl
  | cons t rest ih =>
    obtain ⟨hid, hhd⟩ := h t (List.mem_cons_self t rest)
    obtain ⟨i, hi⟩ := Option.isSome_iff_exists.mp hid
    obtain ⟨v, hv⟩ := Option.isSome_iff_exists.mp hhd
    have hrest := ih (fun u hu => h u (List.mem_cons_of_mem t hu))
    simp [renumberTokens, hi, hv, hrest]

/-- If some token's head is absent from the mapping, the rewrite loop
raises the `KeyError`. -/
theorem renumberTokens_none (m : Int → Option Int) (ts : List Token)
    (h : ∃ t ∈ ts, m t.head = none) :
    renumberTokens m ts = none := by
  induction ts with
  | nil => simp at h
  | cons t rest ih =>
    obtain ⟨u, hu, hnone⟩ := h
    rcases List.mem_cons.mp hu with rfl | humem
    · cases hmid : m u.id <;> simp [renumberTokens, hmid, hnone]
    · cases hmid : m t.id with
      | none => simp [renumberTokens, hmid]
      | some i =>
        cases hmhd : m t.head with
        | none => simp [renumberTokens, hmid, hmhd]
        | some v =>
          have hrest := ih ⟨u, humem, hnone⟩
          simp [renumberTokens, hmid, hmhd, hrest]

/-- The rewrite loop preserves the number of tokens. -/
theorem renumberTokens_length (m : Int → Option Int) (ts s : List Token)
    (h : renumberTokens m ts = some s) : s.length = ts.length := by
  induction ts generalizing s with
  | nil => simp [renumberTokens] at h; simp [← h]
  | cons t rest ih =>
    cases hmid : m t.id with
    | none => simp [renumberTokens, hmid] at h
    | some i =>
      cases hmhd : m t.head with
      | none => simp [renumberTokens, hmid, hmhd] at h
      | some v =>
        cases hrest : renumberTokens m rest with
        | none => simp [renumberTokens, hmid, hmhd, hrest] at h
        | some s2 =>
          rw [renumberTokens, hmid, hmhd, hrest] at h
          obtain rfl : { t with id := i, head := v } :: s2 = s := by simpa using h
          simp [ih s2 hrest]

/-- C1 (counterexample): a sentence whose single token has index 0 (and
head 0) has pairwise-distinct indices and every head equal to 0 or to a
token's index, yet `renumber` does not produce the contiguous range
1..n: the final `mapping[0] = 0` insertion overrides the token's own
entry, so the token keeps index 0 instead of becoming 1. -/
theorem renumber_zero_id_counterexample :
    renumber [⟨0, "x", "_", "X", "_", "_", 0, "dep", "_", "_"⟩] =
      some [⟨0, "x", "_", "X", "_", "_", 0, "dep", "_", "_"⟩] ∧
    ([⟨0, "x", "_", "X", "_", "_", 0, "dep", "_", "_"⟩].map Token.id).Nodup ∧
    (0 : Int) ≠ 1 := by
  refine ⟨by decide, by decide, by decide⟩

/-- C1 (amended): for every sentence with pairwise-distinct NONZERO
integer indices whose every head is 0 or some token's index, `renumber`
succeeds and rewrites the token at position `i` (0-based) to index
`i + 1` — so the indices are exactly 1..n in the original order — and
rewrites its head through the same old-to-new mapping (0 staying 0, the
old index of the token at position `j` becoming `j + 1`), leaving every
head in 0..n and all other fields unchanged. -/
theorem renumber_contiguous (sent : Sentence)
    (hnd : (sent.map Token.id).Nodup)
    (hnz : ∀ t ∈ sent, t.id ≠ 0)
    (hhd : ∀ t ∈ sent, t.head = 0 ∨ ∃ u ∈ sent, u.id = t.head) :
    ∃ s, renumber sent = some s ∧ s.length = sent.length ∧
      ∀ i, ∀ hi : i < sent.length, ∃ newh : Int,
        s.get? i = some { sent.get ⟨i, hi⟩ with id := (i : Int) + 1, head := newh } ∧
        ((sent.get ⟨i, hi⟩).head = 0 → newh = 0) ∧
        (∀ j, ∀ hj : j < sent.length,
          (sent.get ⟨j, hj⟩).id = (sent.get ⟨i, hi⟩).head → newh = (j : Int) + 1) ∧
        0 ≤ newh ∧ newh ≤ (sent.length : Int) := by
  set m := dictLookup (renumberEntries sent) with hm
  have hlookup_id : ∀ i, ∀ hi : i < sent.length,
      m ((sent.get ⟨i, hi⟩).id) = some ((i : Int) + 1) := by
    intro i hi
    exact dictLookup_renumber_id sent hnd i hi (hnz _ (sent.get_mem i hi))
  have hsome : ∀ t ∈ sent, (m t.id).isSome ∧ (m t.head).isSome := by
    intro t ht
    obtain ⟨⟨i, hi⟩, rfl⟩ := List.mem_iff_get.mp ht
    constructor
    · rw [hlookup_id i hi]; rfl
    · rcases hhd _ ht with h0 | ⟨u, hu, huid⟩
      · rw [h0, hm, dictLookup_renumber_zero]; rfl
      · obtain ⟨⟨j, hj⟩, rfl⟩ := List.mem_iff_get.mp hu
        rw [← huid, hlookup_id j hj]; rfl
  refine ⟨_, renumberTokens_eq_map m sent hsome, by simp, ?_⟩
  intro i hi
  refine ⟨(m ((sent.get ⟨i, hi⟩).head)).getD 0, ?_, ?_, ?_, ?_, ?_⟩
  · have hid := hlookup_id i hi
    rw [List.get_eq_getElem] at hid
    simp [List.get?_eq_getElem?, List.getElem?_eq_getElem hi, hid,
      List.get_eq_getElem]
  · intro h0
    rw [h0, hm, dictLookup_renumber_zero]
    rfl
  · intro j hj hji
    rw [← hji, hlookup_id j hj]
    rfl
  · rcases hhd _ (sent.get_mem i hi) with h0 | ⟨u, hu, huid⟩
    · rw [h0, hm, dictLookup_renumber_zero]; rfl
    · obtain ⟨⟨j, hj⟩, rfl⟩ := List.mem_iff_get.mp hu
      rw [← huid, hlookup_id j hj]
      simp only [Option.getD_some]
      omega
  · rcases hhd _ (sent.get_mem i hi) with h0 | ⟨u, hu, huid⟩
    · rw [h0, hm, dictLookup_renumber_zero]
      simp only [Option.getD_some]
      omega
    · obtain ⟨⟨j, hj⟩, rfl⟩ := List.mem_iff_get.mp hu
      rw [← huid, hlookup_id j hj]
      simp only [Option.getD_some]
      omega

/-- C9: `renumber` is idempotent: on a sentence whose indices are
already exactly 1..n in order and whose heads all lie in 0..n, it
returns the sentence unchanged (every token keeps its index and its
head). -/
theorem renumber_idempotent (sent : Sentence)
    (hid : ∀ i, ∀ hi : i < sent.length, (sent.get ⟨i, hi⟩).id = (i : Int) + 1)
    (hhd : ∀ t ∈ sent, 0 ≤ t.head ∧ t.head ≤ (sent.length : Int)) :
    renumber sent = some sent := by
  set m := dictLookup (renumberEntries sent) with hm
  have hgetid : ∀ a : Fin (sent.map Token.id).length,
      (sent.map Token.id).get a = ((a : Nat) : Int) + 1 := by
    intro a
    rcases a with ⟨av, hav⟩
    have hav2 : av < sent.length := by simpa using hav
    have h := hid av hav2
    rw [List.get_eq_getElem] at h ⊢
    simpa using h
  have hnd : (sent.map Token.id).Nodup := by
    rw [List.nodup_iff_injective_get]
    intro a b hab
    have ha := hgetid a
    have hb := hgetid b
    rw [hab, hb] at ha
    exact Fin.ext (by omega)
  have hm_id : ∀ t ∈ sent, m t.id = some t.id := by
    intro t ht
    obtain ⟨⟨i, hi⟩, rfl⟩ := List.mem_iff_get.mp ht
    have hnz : (sent.get ⟨i, hi⟩).id ≠ 0 := by rw [hid i hi]; omega
    rw [hm, dictLookup_renumber_id sent hnd i hi hnz, hid i hi]
  have hm_head : ∀ t ∈ sent, m t.head = some t.head := by
    intro t ht
    obtain ⟨h0, hn⟩ := hhd t ht
    by_cases hz : t.head = 0
    · rw [hz, hm, dictLookup_renumber_zero]
    · have h1 : 1 ≤ t.head := by omega
      set j : Nat := (t.head - 1).toNat with hj_def
      have hj : j < sent.length := by omega
      have hjid : (sent.get ⟨j, hj⟩).id = t.head := by rw [hid j hj]; omega
      have hnz : (sent.get ⟨j, hj⟩).id ≠ 0 := by omega
      have := dictLookup_renumber_id sent hnd j hj hnz
      rw [hjid] at this
      rw [hm, this]
      congr 1
      omega
  have hsome : ∀ t ∈ sent, (m t.id).isSome ∧ (m t.head).isSome := by
    intro t ht
    rw [hm_id t ht, hm_head t ht]
    exact ⟨rfl, rfl⟩
  rw [renumber, ← hm, renumberTokens_eq_map m sent hsome]
  congr 1
  conv_rhs => rw [← List.map_id sent]
  apply List.map_congr_left
  intro t ht
  rw [hm_id t ht, hm_head t ht]
  rfl

/-- C2 (amended): when some token's head is neither 0 nor any token's
index, `renumber` fails with the `KeyError` lookup error — but the
failure is NOT fatal for the file: `conllureader` catches it at the
blank line and silently drops the offending sentence, leaving the
sentences read so far untouched and continuing with an empty pending
sentence. -/
theorem renumber_dangling_head_dropped (sent : Sentence)
    (hdangling : ∃ t ∈ sent, t.head ≠ 0 ∧ ∀ u ∈ sent, u.id ≠ t.head) :
    renumber sent = none ∧
    ∀ (ep : Bool) (result : List Sentence),
      conlluStep ep (result, sent) "\n" = Except.ok (result, []) := by
  obtain ⟨t, ht, hnz, habs⟩ := hdangling
  have hlook : dictLookup (renumberEntries sent) t.head = none :=
    dictLookup_renumber_none sent t.head hnz (fun u hu => habs u hu)
  have hnone : renumber sent = none :=
    renumberTokens_none _ sent ⟨t, ht, hlook⟩
  refine ⟨hnone, ?_⟩
  intro ep result
  have hne : sent.isEmpty = false := by
    cases sent with
    | nil => simp at ht
    | cons a rest => rfl
  simp [conlluStep, hne, hnone]

/-- The reader loop splits over concatenated input. -/
theorem conlluFold_append (ep : Bool) (st : List Sentence × Sentence)
    (xs ys : List String) :
    conlluFold ep st (xs ++ ys) =
      match conlluFold ep st xs with
      | .error e => .error e
      | .ok st2 => conlluFold ep st2 ys := by
  induction xs generalizing st with
  | nil => simp [conlluFold]
  | cons l ls ih =>
    rw [List.cons_append, conlluFold, conlluFold]
    cases conlluStep ep st l with
    | error e => rfl
    | ok st2 => exact ih st2

/-- C4 (amended): a sentence still pending when the stream ends is
DISCARDED, not flushed: appending one more token line (any non-blank,
non-comment line that parses without a propagating error) to the input
never changes the corpus `conllureader` returns, because tokens that are
not followed by a blank line never reach the result. -/
theorem trailing_token_line_no_flush (lines : List String) (ep : Bool)
    (l : String) (r : Option Token)
    (h1 : l ≠ "\n") (h2 : isComment l = false)
    (h3 : parseTokenLine ep l = Except.ok r) :
    conllureader (lines ++ [l]) ep = conllureader lines ep := by
  unfold conllureader
  rw [conlluFold_append]
  cases hfold : conlluFold ep ([], []) lines with
  | error e => rfl
  | ok st2 =>
    obtain ⟨res, pending⟩ := st2
    have hstep : conlluFold ep (res, pending) [l] =
        .ok (res, pending ++ (match r with | none => [] | some t => [t])) := by
      rw [conlluFold]
      rw [conlluStep]
      simp only [h1, if_false, h2, Bool.false_eq_true, h3]
      cases r with
      | none => simp [conlluFold]
      | some t => simp [conlluFold]
    dsimp only
    rw [hstep]

/-- One reader step keeps every sentence of the result component
non-empty. -/
theorem conlluStep_nonempty (ep : Bool) (st st2 : List Sentence × Sentence)
    (line : String) (hstep : conlluStep ep st line = Except.ok st2)
    (hinv : ∀ s ∈ st.1, s ≠ []) : ∀ s ∈ st2.1, s ≠ [] := by
  rw [conlluStep] at hstep
  by_cases hb : line = "\n"
  · rw [if_pos hb] at hstep
    by_cases hempty : st.2.isEmpty
    · rw [if_pos hempty] at hstep
      obtain rfl : st2 = (st.1, st.2) := by
        cases hstep; rfl
      exact hinv
    · rw [if_neg hempty] at hstep
      cases hren : renumber st.2 with
      | some s =>
        rw [hren] at hstep
        obtain rfl : st2 = (st.1 ++ [s], []) := by
          cases hstep; rfl
        intro q hq
        rcases List.mem_append.mp hq with h | h
        · exact hinv q h
        · have hq2 : q = s := by simpa using h
          subst hq2
          have hlen : q.length = st.2.length :=
            renumberTokens_length _ _ _ hren
          intro hcontra
          rw [hcontra] at hlen
          have : st.2 = [] := List.length_eq_zero.mp hlen.symm
          rw [this] at hempty
          simp at hempty
      | none =>
        rw [hren] at hstep
        obtain rfl : st2 = (st.1, []) := by
          cases hstep; rfl
        exact hinv
  · rw [if_neg hb] at hstep
    by_cases hc : isComment line
    · rw [if_pos hc] at hstep
      obtain rfl : st2 = (st.1, st.2) := by
        cases hstep; rfl
      exact hinv
    · rw [if_neg hc] at hstep
      cases hp : parseTokenLine ep line with
      | error e => rw [hp] at hstep; cases hstep
      | ok r =>
        rw [hp] at hstep
        cases r with
        | none =>
          obtain rfl : st2 = (st.1, st.2) := by
            cases hstep; rfl
          exact hinv
        | some t =>
          obtain rfl : st2 = (st.1, st.2 ++ [t]) := by
            cases hstep; rfl
          exact hinv

/-- The whole reader loop keeps every sentence of the result component
non-empty. -/
theorem conlluFold_nonempty (ep : Bool) (lines : List String)
    (st st2 : List Sentence × Sentence)
    (hfold : conlluFold ep st lines = Except.ok st2)
    (hinv : ∀ s ∈ st.1, s ≠ []) : ∀ s ∈ st2.1, s ≠ [] := by
  induction lines generalizing st with
  | nil =>
    rw [conlluFold] at hfold
    cases hfold
    exact hinv
  | cons l ls ih =>
    rw [conlluFold] at hfold
    cases hstep : conlluStep ep st l with
    | error e => rw [hstep] at hfold; cases hfold
    | ok stm =>
      rw [hstep] at hfold
      exact ih stm hfold (conlluStep_nonempty ep st stm l hstep hinv)

/-- C10: every sentence of a corpus successfully returned by
`conllureader` has at least one token (an empty pending sentence is
never appended), so the per-sentence divisions by `len(sent)` in CLL
and LXD and the means over the sentence's tokens in ADJD, LEFT and MOD
never divide by zero. -/
theorem conllureader_sentences_nonempty (lines : List String) (ep : Bool)
    (corpus : List Sentence)
    (h : conllureader lines ep = Except.ok corpus) :
    ∀ sent ∈ corpus, 0 < sent.length := by
  rw [conllureader] at h
  cases hfold : conlluFold ep ([], []) lines with
  | error e => rw [hfold] at h; cases h
  | ok st2 =>
    rw [hfold] at h
    obtain ⟨res, pending⟩ := st2
    by_cases hres : res.isEmpty
    · simp [hres] at h
    · simp only [hres, if_false] at h
      have heq : res = corpus := by
        simpa using h
      subst heq
      intro sent hsent
      have hne := conlluFold_nonempty ep lines ([], []) (res, pending)
        hfold (by simp) sent hsent
      exact List.length_pos.mpr hne

/-- A list of rationals bounded by 1 sums to at most its length. -/
theorem list_sum_le_length (l : List ℚ) (h : ∀ x ∈ l, x ≤ 1) :
    l.sum ≤ (l.length : ℚ) := by
  induction l with
  | nil => simp
  | cons a rest ih =>
    have ha := h a (List.mem_cons_self a rest)
    have hrest := ih (fun x hx => h x (List.mem_cons_of_mem a hx))
    simp only [List.sum_cons, List.length_cons]
    push_cast
    linarith

/-- C5 (counterexample): the single-token sentence consisting of the
renumbered root token (index 1, head 0) has ADJD equal to 1, not 0: the
indicator `abs(1 - 0) == 1` is true for the root token, which is not
excluded from the ADJD mean. -/
theorem adjd_single_root_counterexample :
    ADJD [⟨1, "Yes", "_", "INTJ", "_", "_", 0, "root", "_", "_"⟩] = 1 ∧
    (1 : ℚ) ≠ 0 := by
  constructor
  · simp [ADJD, meanQ]
  · norm_num

/-- C5 (amended): for every non-empty sentence ADJD is at most 1 (it is
a mean of 0/1 indicators), but a single-token sentence need not have
ADJD 0: after renumbering its token has index 1, and if its head is 0
(the root case) the adjacency indicator `abs(1 - 0) == 1` holds, giving
ADJD exactly 1; ADJD is 0 for a single-token sentence only when the
token is its own head. -/
theorem adjd_le_one_and_single_root_one :
    (∀ sent : Sentence, sent ≠ [] → ADJD sent ≤ 1) ∧
    (∀ t : Token, t.id = 1 → t.head = 0 → ADJD [t] = 1) ∧
    (∀ t : Token, t.id = 1 → t.head = 1 → ADJD [t] = 0) := by
  refine ⟨?_, ?_, ?_⟩
  · intro sent hne
    rw [ADJD, meanQ]
    have hlen : ((sent.map (fun t => if |t.id - t.head| = 1 then (1 : ℚ) else 0)).length : ℚ) =
        (sent.length : ℚ) := by simp
    have hpos : (0 : ℚ) < (sent.length : ℚ) := by
      have : sent.length ≠ 0 := fun hc => hne (List.length_eq_zero.mp hc)
      have : 0 < sent.length := Nat.pos_of_ne_zero this
      exact_mod_cast this
    rw [hlen, div_le_one hpos]
    calc (sent.map (fun t => if |t.id - t.head| = 1 then (1 : ℚ) else 0)).sum
        ≤ ((sent.map (fun t => if |t.id - t.head| = 1 then (1 : ℚ) else 0)).length : ℚ) := by
          apply list_sum_le_length
          intro x hx
          obtain ⟨t, _, rfl⟩ := List.mem_map.mp hx
          by_cases hca : |t.id - t.head| = 1 <;> simp [hca]
      _ = (sent.length : ℚ) := by simp
  · intro t h1 h0
    simp [ADJD, meanQ, h1, h0]
  · intro t h1 h0
    simp [ADJD, meanQ, h1, h0]

/-- C8: for every sentence (paired with its own MDD, exactly as the
code zips `result['MDD']` with `sentences`): if no token carries the
relation `root`, the NDD computation fails with the root-lookup error
(`list.index` raising `ValueError`); if a root token exists but MDD is
zero or negative, it fails with the log-domain error; and whenever MDD
is zero or negative it never returns a value — the conditions are
surfaced as errors, not coerced. -/
theorem ndd_error_conditions (sent : Sentence) :
    ((∀ t ∈ sent, t.deprel ≠ "root") →
      nddCalc sent (MDD sent) = Except.error NddErr.rootNotFound) ∧
    ((∃ t ∈ sent, t.deprel = "root") → MDD sent ≤ 0 →
      nddCalc sent (MDD sent) = Except.error NddErr.logDomain) ∧
    (MDD sent ≤ 0 → ∀ q : ℚ, nddCalc sent (MDD sent) ≠ Except.ok q) := by
  refine ⟨?_, ?_, ?_⟩
  · intro hno
    rw [nddCalc]
    have hfind : (sent.map Token.deprel).findIdx? (fun d => d == "root") = none := by
      rw [List.findIdx?_eq_none_iff]
      intro d hd
      obtain ⟨t, ht, rfl⟩ := List.mem_map.mp hd
      exact beq_eq_false_iff_ne.mpr (hno t ht)
    rw [hfind]
  · intro hroot hmdd
    rw [nddCalc]
    obtain ⟨t, ht, htr⟩ := hroot
    cases hfind : (sent.map Token.deprel).findIdx? (fun d => d == "root") with
    | none =>
      rw [List.findIdx?_eq_none_iff] at hfind
      have := hfind t.deprel (List.mem_map_of_mem Token.deprel ht)
      rw [htr] at this
      simp at this
    | some i => simp [hmdd]
  · intro hmdd q
    rw [nddCalc]
    cases hfind : (sent.map Token.deprel).findIdx? (fun d => d == "root") with
    | none => simp
    | some i => simp [hmdd]

/-! ### Witnesses -/

/-- A concrete sentence with non-contiguous IDs (3 and 5). -/
def gapSent : Sentence :=
  [⟨3, "a", "_", "X", "_", "_", 0, "root", "_", "_"⟩,
   ⟨5, "b", "_", "X", "_", "_", 3, "dep", "_", "_"⟩]

/-- Witness for the amended C1 on `gapSent`. -/
theorem renumber_contiguous_witness :
    ∃ s, renumber gapSent = some s ∧ s.length = gapSent.length ∧
      ∀ i, ∀ hi : i < gapSent.length, ∃ newh : Int,
        s.get? i = some { gapSent.get ⟨i, hi⟩ with id := (i : Int) + 1, head := newh } ∧
        ((gapSent.get ⟨i, hi⟩).head = 0 → newh = 0) ∧
        (∀ j, ∀ hj : j < gapSent.length,
          (gapSent.get ⟨j, hj⟩).id = (gapSent.get ⟨i, hi⟩).head → newh = (j : Int) + 1) ∧
        0 ≤ newh ∧ newh ≤ (gapSent.length : Int) :=
  renumber_contiguous gapSent (by decide) (by decide) (by decide)

/-- An already-contiguous sentence: IDs 1, 2 with heads in 0..2. -/
def contiguousSent : Sentence :=
  [⟨1, "c", "_", "X", "_", "_", 2, "dep", "_", "_"⟩,
   ⟨2, "d", "_", "X", "_", "_", 0, "root", "_", "_"⟩]

/-- Witness for C9 on `contiguousSent`. -/
theorem renumber_idempotent_witness :
    renumber contiguousSent = some contiguousSent :=
  renumber_idempotent contiguousSent (by decide) (by decide)

/-- A sentence whose only token has the dangling head 3. -/
def danglingSent : Sentence := [⟨1, "e", "_", "X", "_", "_", 3, "dep", "_", "_"⟩]

/-- Witness for the amended C2 on `danglingSent`. -/
theorem renumber_dangling_head_dropped_witness :
    renumber danglingSent = none ∧
    conlluStep false ([], danglingSent) "\n" = Except.ok ([], []) :=
  ⟨(renumber_dangling_head_dropped danglingSent (by decide)).1,
   (renumber_dangling_head_dropped danglingSent (by decide)).2 false []⟩

/-- Witness for the amended C4: appending a trailing token line to a
one-sentence file leaves the returned corpus unchanged. -/
theorem trailing_token_line_no_flush_witness :
    conllureader
      (["1\tf\t_\tX\t_\t_\t0\troot\t_\t_\n", "\n"] ++
        ["2\tg\t_\tX\t_\t_\t0\troot\t_\t_\n"]) false =
    conllureader ["1\tf\t_\tX\t_\t_\t0\troot\t_\t_\n", "\n"] false :=
  trailing_token_line_no_flush ["1\tf\t_\tX\t_\t_\t0\troot\t_\t_\n", "\n"]
    false "2\tg\t_\tX\t_\t_\t0\troot\t_\t_\n"
    (some ⟨2, "g", "_", "X", "_", "_", 0, "root", "_", "_"⟩)
    (by decide) (by decide) (by decide)

/-- Witness for C10 on a concrete one-sentence file. -/
theorem conllureader_sentences_nonempty_witness :
    0 < [(⟨1, "h", "_", "X", "_", "_", 0, "root", "_", "_"⟩ : Token)].length :=
  conllureader_sentences_nonempty
    ["1\th\t_\tX\t_\t_\t0\troot\t_\t_\n", "\n"] false
    [[⟨1, "h", "_", "X", "_", "_", 0, "root", "_", "_"⟩]] (by decide)
    [⟨1, "h", "_", "X", "_", "_", 0, "root", "_", "_"⟩] (by decide)

/-- Witness for the amended C5 on concrete one-token sentences. -/
theorem adjd_le_one_and_single_root_one_witness :
    ADJD [⟨1, "i", "_", "X", "_", "_", 0, "root", "_", "_"⟩] ≤ 1 ∧
    ADJD [⟨1, "j", "_", "X", "_", "_", 0, "root", "_", "_"⟩] = 1 ∧
    ADJD [⟨1, "k", "_", "X", "_", "_", 1, "dep", "_", "_"⟩] = 0 :=
  ⟨adjd_le_one_and_single_root_one.1 _ (by decide),
   adjd_le_one_and_single_root_one.2.1 _ rfl rfl,
   adjd_le_one_and_single_root_one.2.2 _ rfl rfl⟩

/-- A sentence with no `root` relation. -/
def noRootSent : Sentence := [⟨1, "l", "_", "X", "_", "_", 0, "dep", "_", "_"⟩]

/-- A sentence with a root token but MDD = 0 (its token is its own
head, so the only dependency distance is 0). -/
def zeroMddSent : Sentence := [⟨1, "m", "_", "X", "_", "_", 1, "root", "_", "_"⟩]

/-- Witness for C8 on `noRootSent` and `zeroMddSent`. -/
theorem ndd_error_conditions_witness :
    nddCalc noRootSent (MDD noRootSent) = Except.error NddErr.rootNotFound ∧
    nddCalc zeroMddSent (MDD zeroMddSent) = Except.error NddErr.logDomain :=
  ⟨(ndd_error_conditions noRootSent).1 (by decide),
   (ndd_error_conditions zeroMddSent).2.1
     ⟨⟨1, "m", "_", "X", "_", "_", 1, "root", "_", "_"⟩, by decide, rfl⟩
     (by simp [MDD, meanQ, excludeRels, zeroMddSent, List.filter])⟩
